import Mathlib

/-!
# Verification of the torchinductor scheduling / codegen core

A shallow embedding of the code in `torchinductor/shapes.py`,
`torchinductor/ir.py` and `torchinductor/codegen/triton.py`, together with
theorems settling the specification claims about it.

Symbolic `sympy` expressions are embedded as canonical integer polynomials
over a set of tagged variables (iteration variables `i{n}`, reduction
variables `r{n}`, size variables `s{n}`).  `sympy`'s automatic collection of
like terms in sums makes the canonical-polynomial representation exact for
the expressions this code manipulates (sums of integer-coefficient monomials
in the loop and size variables), and `sympy`'s structural equality (used by
`==` and `!= 0` in the source) coincides with equality of canonical forms.
-/

/-- A symbolic variable: iteration variables (`i0`, `i1`, ...), reduction
variables (`r0`, ...), or graph size variables (`s0`, ...). -/
inductive SVar where
  | iter (n : Nat)
  | red (n : Nat)
  | size (n : Nat)
deriving DecidableEq, Repr

/-- Injective numeric code used to order variables inside a monomial. -/
def SVar.code : SVar → Nat
  | .iter n => 3 * n
  | .red n => 3 * n + 1
  | .size n => 3 * n + 2

/-- A monomial: the multiset of its variables, kept sorted by `SVar.code`. -/
abbrev Mono := List SVar

/-- A polynomial in canonical form: monomials sorted strictly increasing by
the order below, each with a nonzero integer coefficient.  The zero
polynomial is `[]`. -/
abbrev SymPoly := List (Mono × Int)

/-- Strict lexicographic order on monomials (via `SVar.code`). -/
def monoLtB : Mono → Mono → Bool
  | [], [] => false
  | [], _ :: _ => true
  | _ :: _, [] => false
  | a :: as, b :: bs =>
    if a.code < b.code then true
    else if b.code < a.code then false
    else monoLtB as bs

/-- Insert a variable into a sorted monomial. -/
def insertVar (a : SVar) : Mono → Mono
  | [] => [a]
  | b :: bs => if a.code ≤ b.code then a :: b :: bs else b :: insertVar a bs

/-- Merge of two sorted monomials: the product monomial. -/
def monoMul (m n : Mono) : Mono := m.foldr insertVar n

/-- Insert one monomial with coefficient into a canonical polynomial,
merging with an equal monomial and dropping a cancelled term. -/
def insertMono (m : Mono) (c : Int) : SymPoly → SymPoly
  | [] => [(m, c)]
  | (n, d) :: q =>
    if m = n then (if c + d = 0 then q else (n, c + d) :: q)
    else if monoLtB m n then (m, c) :: (n, d) :: q
    else (n, d) :: insertMono m c q

/-- Sum of two canonical polynomials, merging equal monomials and dropping
cancelled terms (as `sympy.Add` does automatically). -/
def addPoly (p q : SymPoly) : SymPoly :=
  p.foldr (fun mc acc => insertMono mc.1 mc.2 acc) q

/-- Negation of a canonical polynomial. -/
def negPoly (p : SymPoly) : SymPoly := p.map (fun mc => (mc.1, -mc.2))

/-- Difference of canonical polynomials (`sympy` subtraction). -/
def subPoly (p q : SymPoly) : SymPoly := addPoly p (negPoly q)

/-- Product of canonical polynomials (`sympy` multiplication, in canonical
form). -/
def mulPoly (p q : SymPoly) : SymPoly :=
  p.foldl
    (fun acc mc =>
      q.foldl
        (fun acc2 nd =>
          if mc.2 * nd.2 = 0 then acc2
          else addPoly acc2 [(monoMul mc.1 nd.1, mc.2 * nd.2)])
        acc)
    []

/-- The constant polynomial (`sympy.Integer c`); `0` is `[]`. -/
def constP (c : Int) : SymPoly := if c = 0 then [] else [([], c)]

/-- A single variable as a polynomial (`sympy.Symbol`). -/
def symP (v : SVar) : SymPoly := [([v], 1)]

/-- Printed name of a variable, as `sympy` prints the symbols this code
mints (`i0`, `r3`, `s1`, ...). -/
def SVar.name : SVar → String
  | .iter n => "i" ++ toString n
  | .red n => "r" ++ toString n
  | .size n => "s" ++ toString n

/-- Rendering of one monomial with its coefficient. -/
def monoStr (mc : Mono × Int) : String :=
  match mc with
  | ([], c) => toString c
  | (vs, c) =>
    let core := String.intercalate "*" (vs.map SVar.name)
    if c = 1 then core else toString c ++ "*" ++ core

/-- Modelled from the spec: `texpr` is `TritonPrinter().doprint`, the
expression-to-source-text renderer inherited from `ExprPrinter` in
`codegen/common.py` (a file not present in `src/`); it renders a symbolic
expression as target-language text, here as a sum of printed monomials. -/
def texpr (p : SymPoly) : String :=
  match p with
  | [] => "0"
  | _ => String.intercalate " + " (p.map monoStr)

/-- Modelled from the spec: `product` from `codegen/common.py` (not present
in `src/`) computes the product of a list of size expressions, starting
from `1`. -/
def product (l : List SymPoly) : SymPoly := l.foldl mulPoly (constP 1)

/-- `split_sizes` from `codegen/triton.py`: scan split points `i` in
`range(len(sizes))` and return the first one where the prefix has product
`prod1` and the suffix has product `prod2`; `None` if the scan finds none. -/
def split_sizes (sizes : List SymPoly) (prod1 prod2 : SymPoly) : Option Nat :=
  (List.range sizes.length).find? fun i =>
    decide (product (sizes.take i) = prod1) &&
      decide (product (sizes.drop i) = prod2)

/-- A `find?` over `List.range n` returns `some i` exactly when `i` is the
least index below `n` satisfying the predicate. -/
theorem find_range_eq_some {p : Nat → Bool} (n i : Nat) :
    (List.range n).find? p = some i ↔
      i < n ∧ p i = true ∧ ∀ j < i, p j = false := by
  induction n generalizing i with
  | zero => simp [List.range_zero]
  | succ n ih =>
    rw [List.range_succ, List.find?_append]
    rcases hf : (List.range n).find? p with _ | k
    · have hnone : ∀ j < n, p j = false := by
        intro j hj
        have := List.find?_eq_none.mp hf j (List.mem_range.mpr hj)
        simpa using this
      simp only [Option.none_or]
      by_cases hp : p n = true
      · simp only [List.find?, hp, Option.some.injEq]
        constructor
        · rintro rfl
          exact ⟨Nat.lt_succ_self n, hp, hnone⟩
        · rintro ⟨hlt, hpi, _⟩
          rcases Nat.lt_succ_iff_lt_or_eq.mp hlt with h | h
          · exact absurd hpi (by simp [hnone i h])
          · exact h.symm
      · have hp' : p n = false := by simpa using hp
        simp only [List.find?, hp']
        constructor
        · intro h; cases h
        · rintro ⟨hlt, hpi, _⟩
          rcases Nat.lt_succ_iff_lt_or_eq.mp hlt with h | h
          · exact absurd hpi (by simp [hnone i h])
          · exact absurd hpi (by simp [h, hp'])
    · have hk := (ih k).mp hf
      rw [show (some k).or (List.find? p [n]) = some k from rfl]
      simp only [Option.some.injEq]
      constructor
      · rintro rfl
        exact ⟨Nat.lt_succ_of_lt hk.1, hk.2.1, hk.2.2⟩
      · rintro ⟨hlt, hpi, hmin⟩
        rcases Nat.lt_trichotomy k i with h | h | h
        · exact absurd hk.2.1 (by simp [hmin k h])
        · exact h
        · exact absurd hpi (by simp [hk.2.2 i h])

/-- The split predicate tested by `split_sizes` at split point `i`. -/
def splitOk (sizes : List SymPoly) (p1 p2 : SymPoly) (i : Nat) : Prop :=
  product (sizes.take i) = p1 ∧ product (sizes.drop i) = p2

instance (sizes : List SymPoly) (p1 p2 : SymPoly) (i : Nat) :
    Decidable (splitOk sizes p1 p2 i) := by
  unfold splitOk; infer_instance

/-- C1 (counterexample): for `L = [2, 3]`, `p1 = 6`, `p2 = 1` we have
`p1*p2 = product(L)` and the prefix of length 2 has product `p1` with the
remaining (empty) suffix having product `p2`, yet `split_sizes` returns
`None` instead of that prefix length: the scan ranges over
`range(len(sizes))` and never tries the full-list split point. -/
theorem split_sizes_full_prefix_cex :
    mulPoly (constP 6) (constP 1) = product [constP 2, constP 3] ∧
    splitOk [constP 2, constP 3] (constP 6) (constP 1) 2 ∧
    split_sizes [constP 2, constP 3] (constP 6) (constP 1) = none := by
  decide

/-- C1 (amended): `split_sizes L p1 p2` returns the least split point
`i < len L` whose prefix has product `p1` and whose suffix has product
`p2`; when no split point strictly below `len L` works (even if the
full-list prefix would), it returns `None`. -/
theorem split_sizes_spec (sizes : List SymPoly) (p1 p2 : SymPoly) :
    (∀ i, split_sizes sizes p1 p2 = some i ↔
        i < sizes.length ∧ splitOk sizes p1 p2 i ∧
          ∀ j < i, ¬splitOk sizes p1 p2 j) ∧
    (split_sizes sizes p1 p2 = none ↔
        ∀ i < sizes.length, ¬splitOk sizes p1 p2 i) := by
  constructor
  · intro i
    rw [split_sizes, find_range_eq_some]
    simp [splitOk]
  · rw [split_sizes, List.find?_eq_none]
    simp [splitOk]

/-- Witness for `split_sizes_spec` at a concrete input. -/
theorem split_sizes_spec_witness :
    split_sizes [constP 2, constP 3] (constP 2) (constP 3) = some 1 :=
  ((split_sizes_spec [constP 2, constP 3] (constP 2) (constP 3)).1 1).2
    ⟨by decide, by decide, by decide⟩

/-- C8 (counterexample): `split_sizes([2,3,4], 6, 4)` does not return `1`:
the prefix with product 6 is `[2, 3]`, of length 2. -/
theorem split_sizes_example_cex :
    split_sizes [constP 2, constP 3, constP 4] (constP 6) (constP 4) ≠ some 1 := by
  decide

/-- C8 (amended): `split_sizes([2,3,4], 6, 4)` returns `2`, the length of
the prefix `[2, 3]` whose product is 6 (the suffix `[4]` having product 4). -/
theorem split_sizes_example :
    split_sizes [constP 2, constP 3, constP 4] (constP 6) (constP 4) = some 2 := by
  decide

/-- `expr.subs` with every variable in `vars` replaced by `0`: each monomial
mentioning one of those variables vanishes. -/
def subsZero (vars : List SVar) (p : SymPoly) : SymPoly :=
  p.filter fun mc => !(mc.1.any fun v => vars.contains v)

/-- `addr[-1] = f(addr[-1])`: replace the last element of a list. -/
def mapLast (f : String → String) : List String → List String
  | [] => []
  | [a] => [f a]
  | a :: b :: rest => a :: mapLast f (b :: rest)

/-- A Python exception escaping one of the embedded functions. -/
inductive PyErr where
  | assertError
  | keyError
  | typeError
deriving DecidableEq, Repr

/-- One of the three ordered code buffers of a kernel. -/
inductive CodeBuf where
  | loads
  | compute
  | stores
deriving DecidableEq, Repr

/-- The state of a `TritonKernel` (`codegen/triton.py`).  The fields of the
base `Kernel` class from `codegen/common.py` (code buffers, CSE cache,
kernel arguments), which is not present in `src/`, are modelled from the
spec: three ordered code buffers (loads, computed expressions, stores), a
common-subexpression cache keyed by the rendered expression string, and
name-to-parameter maps for input and output buffers. -/
structure TritonKernel where
  numel : SymPoly
  reduction_numel : SymPoly
  iter_vars : List SVar
  reduction_vars : List SVar
  inside_reduction : Bool
  loads : List String
  compute : List String
  stores : List String
  cse_cache : List (String × String)
  cse_count : Nat
  input_buffers : List (String × String)
  output_buffers : List (String × String)
deriving DecidableEq, Repr

/-- `TritonKernel.__init__`: a `None` reduction size becomes `1`; the kernel
is inside a reduction exactly when the reduction size is not `1`. -/
def TritonKernel.init (numel : SymPoly) (reduction_numel : Option SymPoly) :
    TritonKernel :=
  let rn := reduction_numel.getD (constP 1)
  { numel := numel
    reduction_numel := rn
    iter_vars := []
    reduction_vars := []
    inside_reduction := decide (rn ≠ constP 1)
    loads := []
    compute := []
    stores := []
    cse_cache := []
    cse_count := 0
    input_buffers := []
    output_buffers := [] }

/-- Modelled from the spec: `Kernel.rename_indexing` (from
`codegen/common.py`, not present in `src/`) replaces graph-level size
symbols by the kernel-argument size names.  The embedding uses one
namespace for both, so the renaming is the identity. -/
def TritonKernel.rename_indexing (_k : TritonKernel) (index : SymPoly) :
    SymPoly :=
  index

/-- `TritonKernel.indexing`: decompose `index` into constant `offset`,
iteration-only `base_part` and reduction-only `reduction_part`, and render
the address component list.  The `assert reduction_part == 0` taken outside
reduction mode is modelled as an `assertError`. -/
def TritonKernel.indexing (k : TritonKernel) (index : SymPoly) :
    Except PyErr String :=
  let index := k.rename_indexing index
  let offset := subsZero (k.iter_vars ++ k.reduction_vars) index
  let base_part := subPoly (subsZero k.reduction_vars index) offset
  let reduction_part := subPoly (subsZero k.iter_vars index) offset
  let addr : List String := if offset ≠ [] then [texpr offset] else []
  let addr := addr ++
    [if base_part ≠ [] then texpr base_part
     else "tl.zeros((BLOCK_SIZE, ), tl.int32)"]
  if k.inside_reduction then
    let addr := mapLast (fun s => "tl.reshape(" ++ s ++ ", (BLOCK_SIZE, 1))") addr
    let addr := addr ++
      [if reduction_part ≠ [] then texpr reduction_part
       else "tl.zeros((REDUCTION_SIZE, ), tl.int32)"]
    let addr := mapLast (fun s => "tl.reshape(" ++ s ++ ", (1, REDUCTION_SIZE))") addr
    .ok (String.intercalate " + " addr)
  else
    if reduction_part = [] then .ok (String.intercalate " + " addr)
    else .error .assertError

/-- `TritonKernel.mask`: reduction-aware mask argument text. -/
def TritonKernel.mask (k : TritonKernel) (reductions : Bool) : String :=
  if k.inside_reduction && reductions then "mask=mask_reduction" else "mask=mask"

/-- Append a line to one of the code buffers. -/
def writeBuf (k : TritonKernel) (b : CodeBuf) (line : String) : TritonKernel :=
  match b with
  | .loads => { k with loads := k.loads ++ [line] }
  | .compute => { k with compute := k.compute ++ [line] }
  | .stores => { k with stores := k.stores ++ [line] }

/-- Modelled from the spec: `CSE.generate` (from `codegen/common.py`, not
present in `src/`): the cache is keyed by the rendered expression string; a
repeated expression returns the previously minted variable by reference, a
new one mints a fresh temporary, appends its definition to the given buffer
and caches it. -/
def cseGenerate (k : TritonKernel) (b : CodeBuf) (line : String) :
    TritonKernel × String :=
  match k.cse_cache.lookup line with
  | some v => (k, v)
  | none =>
    let v := "tmp" ++ toString k.cse_count
    (writeBuf
        { k with
          cse_cache := k.cse_cache ++ [(line, v)]
          cse_count := k.cse_count + 1 }
        b (v ++ " = " ++ line),
      v)

/-- Modelled from the spec: `KernelArgs.input` (from `codegen/common.py`,
not present in `src/`) resolves a buffer name to its kernel-local parameter
name, minting a fresh input-pointer parameter on first use. -/
def argsInput (k : TritonKernel) (name : String) : TritonKernel × String :=
  match k.input_buffers.lookup name with
  | some v => (k, v)
  | none =>
    let v := "in_ptr" ++ toString k.input_buffers.length
    ({ k with input_buffers := k.input_buffers ++ [(name, v)] }, v)

/-- Modelled from the spec: `KernelArgs.output`, symmetric to `input`. -/
def argsOutput (k : TritonKernel) (name : String) : TritonKernel × String :=
  match k.output_buffers.lookup name with
  | some v => (k, v)
  | none =>
    let v := "out_ptr" ++ toString k.output_buffers.length
    ({ k with output_buffers := k.output_buffers ++ [(name, v)] }, v)

/-- `TritonKernel.load`: resolve the buffer, compute the address, emit a
masked load through the CSE cache.  An exception from `indexing` propagates
with the state mutated so far. -/
def TritonKernel.load (k : TritonKernel) (name : String) (index : SymPoly) :
    Except (PyErr × TritonKernel) (TritonKernel × String) :=
  let (k, var) := argsInput k name
  match k.indexing index with
  | .error e => .error (e, k)
  | .ok addr =>
    .ok (cseGenerate k .loads
      ("tl.load(" ++ var ++ " + " ++ addr ++ ", " ++ k.mask true ++ ")"))

/-- `TritonKernel.store`: resolve the output buffer, compute the address,
emit a masked store line. -/
def TritonKernel.store (k : TritonKernel) (name : String) (index : SymPoly)
    (value : String) : Except (PyErr × TritonKernel) TritonKernel :=
  let (k, var) := argsOutput k name
  match k.indexing index with
  | .error e => .error (e, k)
  | .ok addr =>
    .ok (writeBuf k .stores
      ("tl.store(" ++ var ++ " + " ++ addr ++ ", " ++ value ++ ", " ++
        k.mask true ++ ")"))

/-- The identity-element table `default` of `TritonKernel.reduction`;
an unrecognized reduction kind is a `KeyError`. -/
def reductionDefault : String → Option String
  | "sum" => some "0"
  | "max" => some "float(\x27-inf\x27)"
  | "min" => some "float(\x27inf\x27)"
  | _ => none

/-- `TritonKernel.reduction`: substitute the identity element for
masked-out lanes under the reduction mask, reduce over axis 1, then store
the result with reduction mode temporarily off.  The `KeyError` from the
`default` table fires while formatting the first line, before anything is
emitted. -/
def TritonKernel.reduction (k : TritonKernel) (name _dtype reduction_type : String)
    (index : SymPoly) (value : String) :
    Except (PyErr × TritonKernel) TritonKernel :=
  match reductionDefault reduction_type with
  | none => .error (.keyError, k)
  | some d =>
    let (k1, res) := cseGenerate k .compute
      ("tl.where(mask_reduction, " ++ value ++ ", " ++ d ++
        ") if NEED_MASK else " ++ value)
    let (k2, res2) := cseGenerate k1 .compute
      ("tl." ++ reduction_type ++ "(" ++ res ++ ", 1)")
    if k2.inside_reduction then
      match TritonKernel.store { k2 with inside_reduction := false } name index res2 with
      | .ok k3 => .ok { k3 with inside_reduction := true }
      | .error e => .error e
    else .error (.assertError, k2)

/-- `mapLast` on a list with a known last element rewrites just that
element. -/
theorem mapLast_append (f : String → String) (l : List String) (a : String) :
    mapLast f (l ++ [a]) = l ++ [f a] := by
  induction l with
  | nil => rfl
  | cons x xs ih =>
    cases xs with
    | nil => rfl
    | cons y ys =>
      show x :: mapLast f ((y :: ys) ++ [a]) = x :: ((y :: ys) ++ [f a])
      rw [ih]

/-- The constant `offset` of `TritonKernel.indexing`: the index with all
iteration and reduction variables substituted by `0`. -/
def idx_offset (k : TritonKernel) (index : SymPoly) : SymPoly :=
  subsZero (k.iter_vars ++ k.reduction_vars) (k.rename_indexing index)

/-- The `base_part` of `TritonKernel.indexing`: the index with only the
reduction variables substituted by `0`, minus the offset. -/
def idx_base_part (k : TritonKernel) (index : SymPoly) : SymPoly :=
  subPoly (subsZero k.reduction_vars (k.rename_indexing index)) (idx_offset k index)

/-- The `reduction_part` of `TritonKernel.indexing`: the index with only
the iteration variables substituted by `0`, minus the offset. -/
def idx_reduction_part (k : TritonKernel) (index : SymPoly) : SymPoly :=
  subPoly (subsZero k.iter_vars (k.rename_indexing index)) (idx_offset k index)

/-- C2: `indexing(index)` decomposes the index into `offset` (all
iteration and reduction variables zeroed), `base_part` (reduction
variables zeroed, offset subtracted) and `reduction_part` (iteration
variables zeroed, offset subtracted), and returns the address list, in
order: the offset only when it is nonzero, then the base part (or a
zero-filled BLOCK_SIZE placeholder when it is zero), and — only when the
kernel is inside a reduction — the reduction part (or a zero-filled
REDUCTION_SIZE placeholder), with the base part reshaped to a
`(BLOCK_SIZE, 1)` column and the reduction part reshaped to a
`(1, REDUCTION_SIZE)` row. -/
theorem indexing_spec (k : TritonKernel) (index : SymPoly) :
    (k.inside_reduction = true →
      k.indexing index = Except.ok (String.intercalate " + "
        ((if idx_offset k index ≠ [] then [texpr (idx_offset k index)] else []) ++
         ["tl.reshape(" ++
            (if idx_base_part k index ≠ [] then texpr (idx_base_part k index)
             else "tl.zeros((BLOCK_SIZE, ), tl.int32)") ++ ", (BLOCK_SIZE, 1))",
          "tl.reshape(" ++
            (if idx_reduction_part k index ≠ [] then texpr (idx_reduction_part k index)
             else "tl.zeros((REDUCTION_SIZE, ), tl.int32)") ++ ", (1, REDUCTION_SIZE))"]))) ∧
    (k.inside_reduction = false → idx_reduction_part k index = [] →
      k.indexing index = Except.ok (String.intercalate " + "
        ((if idx_offset k index ≠ [] then [texpr (idx_offset k index)] else []) ++
         [if idx_base_part k index ≠ [] then texpr (idx_base_part k index)
          else "tl.zeros((BLOCK_SIZE, ), tl.int32)"]))) := by
  constructor
  · intro h
    simp only [TritonKernel.indexing, idx_offset, idx_base_part, idx_reduction_part,
      TritonKernel.rename_indexing, h, if_true]
    rw [mapLast_append, mapLast_append]
    simp [List.append_assoc]
  · intro h h0
    simp only [TritonKernel.indexing, idx_offset, idx_base_part, idx_reduction_part,
      TritonKernel.rename_indexing, h] at *
    simp [h0]

/-- A concrete reduction-mode kernel with one iteration and one reduction
variable. -/
def kIdxEx : TritonKernel :=
  { TritonKernel.init (constP 4) (some (constP 8)) with
    iter_vars := [.iter 0]
    reduction_vars := [.red 1] }

/-- Witness for `indexing_spec` at a concrete reduction-mode kernel and
index. -/
theorem indexing_spec_witness :
    kIdxEx.indexing (addPoly (symP (.iter 0)) (symP (.red 1))) =
      Except.ok (String.intercalate " + "
        ((if idx_offset kIdxEx (addPoly (symP (.iter 0)) (symP (.red 1))) ≠ [] then
            [texpr (idx_offset kIdxEx (addPoly (symP (.iter 0)) (symP (.red 1))))] else []) ++
         ["tl.reshape(" ++
            (if idx_base_part kIdxEx (addPoly (symP (.iter 0)) (symP (.red 1))) ≠ [] then
              texpr (idx_base_part kIdxEx (addPoly (symP (.iter 0)) (symP (.red 1))))
             else "tl.zeros((BLOCK_SIZE, ), tl.int32)") ++ ", (BLOCK_SIZE, 1))",
          "tl.reshape(" ++
            (if idx_reduction_part kIdxEx (addPoly (symP (.iter 0)) (symP (.red 1))) ≠ [] then
              texpr (idx_reduction_part kIdxEx (addPoly (symP (.iter 0)) (symP (.red 1))))
             else "tl.zeros((REDUCTION_SIZE, ), tl.int32)") ++ ", (1, REDUCTION_SIZE))"])) :=
  (indexing_spec kIdxEx (addPoly (symP (.iter 0)) (symP (.red 1)))).1 (by decide)

/-- C3: outside reduction mode, an index whose `reduction_part` is nonzero
makes `indexing` fail its assertion rather than return an address; when
the `reduction_part` is zero the assertion cannot fire and an address
string is returned. -/
theorem indexing_assert_spec (k : TritonKernel) (index : SymPoly)
    (h : k.inside_reduction = false) :
    (idx_reduction_part k index ≠ [] →
      k.indexing index = Except.error PyErr.assertError) ∧
    (idx_reduction_part k index = [] →
      ∃ s, k.indexing index = Except.ok s) := by
  constructor
  · intro hne
    simp only [TritonKernel.indexing, TritonKernel.rename_indexing, h] at *
    simp only [idx_reduction_part, idx_offset, TritonKernel.rename_indexing] at hne
    simp [hne]
  · intro hz
    simp only [TritonKernel.indexing, TritonKernel.rename_indexing, h] at *
    simp only [idx_reduction_part, idx_offset, TritonKernel.rename_indexing] at hz
    simp [hz]

/-- A concrete pointwise (non-reduction) kernel that nonetheless owns a
reduction variable, the contract-violation scenario of C3. -/
def kAssertEx : TritonKernel :=
  { TritonKernel.init (constP 4) none with reduction_vars := [.red 0] }

/-- Witness for `indexing_assert_spec`: a pure-reduction-variable index is
rejected outside reduction mode. -/
theorem indexing_assert_spec_witness :
    idx_reduction_part kAssertEx (symP (.red 0)) ≠ [] ∧
    kAssertEx.indexing (symP (.red 0)) = Except.error PyErr.assertError :=
  ⟨by decide, (indexing_assert_spec kAssertEx (symP (.red 0)) (by decide)).1 (by decide)⟩

/-- `true` when the first character list is a prefix of the second. -/
def listIsPrefixOf : List Char → List Char → Bool
  | [], _ => true
  | _ :: _, [] => false
  | a :: as, b :: bs => a == b && listIsPrefixOf as bs

/-- `true` when `pat` occurs as a contiguous sublist of the second list. -/
def listContainsSub (pat : List Char) : List Char → Bool
  | [] => listIsPrefixOf pat []
  | c :: rest => listIsPrefixOf pat (c :: rest) || listContainsSub pat rest

/-- `true` when `pat` occurs as a substring of `s`. -/
def strContains (s pat : String) : Bool := listContainsSub pat.data s.data

/-- The mask prologue spliced by `TritonKernel.codegen_kernel` into the
generated kernel body (dedented, as `code.splice(..., strip=True)` emits
it): the NEED_MASK decision is taken inside the generated kernel text,
which binds `mask` (and `mask_reduction`) to `None` when NEED_MASK is
false. -/
def maskPrologue (inside_reduction : Bool) : String :=
  if inside_reduction then
    "reduction0 = tl.arange(0, REDUCTION_SIZE)\n" ++
    "if NEED_MASK:\n" ++
    "    mask = indices0 < numel\n" ++
    "    mask_reduction = (tl.reshape(mask, (BLOCK_SIZE, 1)) &\n" ++
    "                      tl.reshape(reduction0 < reduction_numel, (1, REDUCTION_SIZE)))\n" ++
    "else:\n" ++
    "    mask = None\n" ++
    "    mask_reduction = None"
  else
    "if NEED_MASK:\n" ++
    "    mask = indices0 < numel\n" ++
    "else:\n" ++
    "    mask = None"

/-- A concrete pointwise kernel with one iteration variable. -/
def kMaskEx : TritonKernel :=
  { TritonKernel.init (constP 100) none with iter_vars := [.iter 0] }

/-- C4 (counterexample): the kernel source text is emitted once for both
values of NEED_MASK (the flag is a `tl.constexpr` parameter of the
generated kernel), and the load line emitted for a pointwise kernel
references the mask variable (`mask=mask`); so a kernel compiled with
need-mask=false does not have mask-free load/store lines. -/
theorem load_mask_cex :
    (kMaskEx.load "buf0" (symP (.iter 0))).toOption.map (fun p => p.1.loads) =
      some ["tmp0 = tl.load(in_ptr0 + i0, mask=mask)"] ∧
    strContains "tmp0 = tl.load(in_ptr0 + i0, mask=mask)" "mask" = true := by
  decide

/-- Fields of the kernel state untouched by `argsInput`. -/
theorem argsInput_fields (k : TritonKernel) (name : String) :
    (argsInput k name).1.loads = k.loads ∧
    (argsInput k name).1.compute = k.compute ∧
    (argsInput k name).1.stores = k.stores ∧
    (argsInput k name).1.cse_cache = k.cse_cache ∧
    (argsInput k name).1.cse_count = k.cse_count ∧
    (argsInput k name).1.inside_reduction = k.inside_reduction ∧
    (argsInput k name).1.iter_vars = k.iter_vars ∧
    (argsInput k name).1.reduction_vars = k.reduction_vars := by
  unfold argsInput
  cases k.input_buffers.lookup name <;> simp

/-- Fields of the kernel state untouched by `argsOutput`. -/
theorem argsOutput_fields (k : TritonKernel) (name : String) :
    (argsOutput k name).1.loads = k.loads ∧
    (argsOutput k name).1.compute = k.compute ∧
    (argsOutput k name).1.stores = k.stores ∧
    (argsOutput k name).1.cse_cache = k.cse_cache ∧
    (argsOutput k name).1.cse_count = k.cse_count ∧
    (argsOutput k name).1.inside_reduction = k.inside_reduction ∧
    (argsOutput k name).1.iter_vars = k.iter_vars ∧
    (argsOutput k name).1.reduction_vars = k.reduction_vars := by
  unfold argsOutput
  cases k.output_buffers.lookup name <;> simp

/-- `mask` depends only on the `inside_reduction` flag. -/
theorem mask_congr (k k' : TritonKernel) (r : Bool)
    (h : k'.inside_reduction = k.inside_reduction) : k'.mask r = k.mask r := by
  simp [TritonKernel.mask, h]

/-- C4 (amended): emitted load lines and store lines always pass the mask
argument text produced by `self.mask()` (`mask=mask`, or
`mask=mask_reduction` inside a reduction); the need-mask flag does not
exist at emission time — NEED_MASK is a constexpr parameter of the
generated kernel, whose prologue binds the mask variable to `None` when
NEED_MASK is false and to the boundary predicate when it is true. -/
theorem mask_lines_spec :
    (∀ (k : TritonKernel) (name : String) (index : SymPoly),
      ((k.load name index).map (fun p => p.1.loads) =
        (k.load name index).map (fun _ => k.loads)) ∨
      (∃ v pvar addr, (k.load name index).map (fun p => p.1.loads) =
        Except.ok (k.loads ++
          [v ++ " = " ++
            ("tl.load(" ++ pvar ++ " + " ++ addr ++ ", " ++
              k.mask true ++ ")")]))) ∧
    (∀ (k : TritonKernel) (name : String) (index : SymPoly) (value : String),
      (∃ e, k.store name index value = Except.error e) ∨
      (∃ pvar addr, (k.store name index value).map (fun k' => k'.stores) =
        Except.ok (k.stores ++
          ["tl.store(" ++ pvar ++ " + " ++ addr ++ ", " ++ value ++ ", " ++
            k.mask true ++ ")"]))) ∧
    (∀ (k : TritonKernel) (r : Bool), strContains (k.mask r) "mask" = true) ∧
    strContains (maskPrologue true) "mask = None" = true ∧
    strContains (maskPrologue false) "mask = None" = true ∧
    strContains (maskPrologue true) "mask = indices0 < numel" = true ∧
    strContains (maskPrologue false) "mask = indices0 < numel" = true := by
  have hpr1 : strContains (maskPrologue true) "mask = None" = true := by
    set_option maxRecDepth 8000 in decide
  have hpr2 : strContains (maskPrologue false) "mask = None" = true := by
    set_option maxRecDepth 8000 in decide
  have hpr3 : strContains (maskPrologue true) "mask = indices0 < numel" = true := by
    set_option maxRecDepth 8000 in decide
  have hpr4 : strContains (maskPrologue false) "mask = indices0 < numel" = true := by
    set_option maxRecDepth 8000 in decide
  refine ⟨?_, ?_, ?_, hpr1, hpr2, hpr3, hpr4⟩
  · intro k name index
    obtain ⟨hl, _, _, hc, _, hir, _, _⟩ := argsInput_fields k name
    rcases h1 : argsInput k name with ⟨k1, pvar⟩
    rw [h1] at hl hc hir
    simp only [TritonKernel.load, h1]
    rcases hidx : k1.indexing index with e | addr
    · left; rfl
    · rcases hcse : k1.cse_cache.lookup
        ("tl.load(" ++ pvar ++ " + " ++ addr ++ ", " ++ k1.mask true ++ ")") with _ | v
      · right
        refine ⟨"tmp" ++ toString k1.cse_count, pvar, addr, ?_⟩
        simp only [cseGenerate, hcse, writeBuf, Except.map]
        rw [mask_congr k k1 true hir, hl]
      · left
        simp only [cseGenerate, hcse, Except.map]
        rw [hl]
  · intro k name index value
    obtain ⟨_, _, hs, _, _, hir, _, _⟩ := argsOutput_fields k name
    rcases h1 : argsOutput k name with ⟨k1, pvar⟩
    rw [h1] at hs hir
    simp only [TritonKernel.store, h1]
    rcases hidx : k1.indexing index with e | addr
    · left; exact ⟨(e, k1), rfl⟩
    · right
      refine ⟨pvar, addr, ?_⟩
      simp only [writeBuf, Except.map]
      rw [mask_congr k k1 true hir, hs]
  · intro k r
    cases h : k.inside_reduction && r <;> simp [TritonKernel.mask, h] <;> decide

/-- `idx_reduction_part` depends only on the kernel's variable lists. -/
theorem idx_reduction_part_congr (k k' : TritonKernel) (index : SymPoly)
    (h1 : k'.iter_vars = k.iter_vars) (h2 : k'.reduction_vars = k.reduction_vars) :
    idx_reduction_part k' index = idx_reduction_part k index := by
  simp only [idx_reduction_part, idx_offset, TritonKernel.rename_indexing, h1, h2]

/-- Outside reduction mode, `indexing` succeeds when the reduction part of
the index vanishes. -/
theorem indexing_ok_of_nil (k : TritonKernel) (index : SymPoly)
    (h : k.inside_reduction = false) (hz : idx_reduction_part k index = []) :
    ∃ s, k.indexing index = Except.ok s := by
  simp only [idx_reduction_part, idx_offset, TritonKernel.rename_indexing] at hz
  simp only [TritonKernel.indexing, TritonKernel.rename_indexing, h]
  simp [hz]

/-- Appending on the right preserves the character at index 3. -/
theorem data_get3_append (a b : String) {c : Char} (h : a.data[3]? = some c) :
    (a ++ b).data[3]? = some c := by
  have hd : (a ++ b).data = a.data ++ b.data := rfl
  have hlen : 3 < a.data.length := by
    by_contra hn
    push_neg at hn
    rw [List.getElem?_eq_none (by omega)] at h
    cases h
  rw [hd, List.getElem?_append_left hlen]
  exact h

/-- Two strings that disagree at character index 3 are distinct. -/
theorem str_ne_of_get3 {a b : String} {ca cb : Char} (ha : a.data[3]? = some ca)
    (hb : b.data[3]? = some cb) (hne : ca ≠ cb) : a ≠ b := by
  intro e
  subst e
  rw [ha] at hb
  exact hne (Option.some.inj hb)

/-- C5: `reduction` substitutes the identity element (`sum` to `0`, `max`
to `-inf`, `min` to `+inf`) for masked-out lanes under the reduction mask
before reducing over the reduction axis, then stores the result with
reduction mode temporarily off; any reduction kind outside sum, max, min
raises a `KeyError` before anything is emitted (state unchanged), and in
particular neither the reduction nor its store appears. -/
theorem reduction_spec :
    (∀ (k : TritonKernel) (name dtype rt : String) (index : SymPoly) (value : String),
      reductionDefault rt = none →
        k.reduction name dtype rt index value = Except.error (PyErr.keyError, k)) ∧
    (∀ rt, reductionDefault rt = none ↔ rt ∉ (["sum", "max", "min"] : List String)) ∧
    reductionDefault "sum" = some "0" ∧
    reductionDefault "max" = some "float(\x27-inf\x27)" ∧
    reductionDefault "min" = some "float(\x27inf\x27)" ∧
    (∀ (k : TritonKernel) (name dtype rt d : String) (index : SymPoly) (value : String),
      reductionDefault rt = some d →
      k.cse_cache = [] →
      k.inside_reduction = true →
      idx_reduction_part k index = [] →
      ∃ k4 pvar addr,
        k.reduction name dtype rt index value = Except.ok k4 ∧
        k4.compute = k.compute ++
          [("tmp" ++ toString k.cse_count) ++ " = " ++
            ("tl.where(mask_reduction, " ++ value ++ ", " ++ d ++
              ") if NEED_MASK else " ++ value),
           ("tmp" ++ toString (k.cse_count + 1)) ++ " = " ++
            ("tl." ++ rt ++ "(" ++ ("tmp" ++ toString k.cse_count) ++ ", 1)")] ∧
        k4.stores = k.stores ++
          ["tl.store(" ++ pvar ++ " + " ++ addr ++ ", " ++
            ("tmp" ++ toString (k.cse_count + 1)) ++ ", " ++ "mask=mask" ++ ")"] ∧
        k4.inside_reduction = true) := by
  refine ⟨?_, ?_, rfl, rfl, rfl, ?_⟩
  · intro k name dtype rt index value hd
    simp [TritonKernel.reduction, hd]
  · intro rt
    unfold reductionDefault
    split <;> simp_all
  · intro k name dtype rt d index value hd hc hir hz
    have hrt : (rt = "sum" ∧ d = "0") ∨ (rt = "max" ∧ d = "float(\x27-inf\x27)") ∨
        (rt = "min" ∧ d = "float(\x27inf\x27)") := by
      unfold reductionDefault at hd
      split at hd <;> simp_all
    set l1 := "tl.where(mask_reduction, " ++ value ++ ", " ++ d ++
      ") if NEED_MASK else " ++ value with hl1
    set v1 := "tmp" ++ toString k.cse_count with hv1
    set l2 := "tl." ++ rt ++ "(" ++ v1 ++ ", 1)" with hl2
    set v2 := "tmp" ++ toString (k.cse_count + 1) with hv2
    have b0 : ("tl.where(mask_reduction, " : String).data[3]? = some 'w' := by decide
    have b1 := data_get3_append "tl.where(mask_reduction, " value b0
    have b2 := data_get3_append _ ", " b1
    have b3 := data_get3_append _ d b2
    have b4 := data_get3_append _ ") if NEED_MASK else " b3
    have h1c := data_get3_append _ value b4
    rw [← hl1] at h1c
    have hne12 : l1 ≠ l2 := by
      rcases hrt with ⟨h, _⟩ | ⟨h, _⟩ | ⟨h, _⟩ <;> subst h
      · have c0 : ("tl." ++ "sum" : String).data[3]? = some 's' := by decide
        have c1 := data_get3_append _ "(" c0
        have c2 := data_get3_append _ v1 c1
        have c3 := data_get3_append _ ", 1)" c2
        rw [← hl2] at c3
        exact str_ne_of_get3 h1c c3 (by decide)
      · have c0 : ("tl." ++ "max" : String).data[3]? = some 'm' := by decide
        have c1 := data_get3_append _ "(" c0
        have c2 := data_get3_append _ v1 c1
        have c3 := data_get3_append _ ", 1)" c2
        rw [← hl2] at c3
        exact str_ne_of_get3 h1c c3 (by decide)
      · have c0 : ("tl." ++ "min" : String).data[3]? = some 'm' := by decide
        have c1 := data_get3_append _ "(" c0
        have c2 := data_get3_append _ v1 c1
        have c3 := data_get3_append _ ", 1)" c2
        rw [← hl2] at c3
        exact str_ne_of_get3 h1c c3 (by decide)
    set K1 : TritonKernel :=
      { k with
        compute := k.compute ++ [v1 ++ " = " ++ l1]
        cse_cache := [(l1, v1)]
        cse_count := k.cse_count + 1 } with hK1
    have e1 : cseGenerate k .compute l1 = (K1, v1) := by
      rw [hK1, hv1]
      simp [cseGenerate, writeBuf, hc]
    set K2 : TritonKernel :=
      { k with
        compute := k.compute ++ [v1 ++ " = " ++ l1, v2 ++ " = " ++ l2]
        cse_cache := [(l1, v1), (l2, v2)]
        cse_count := k.cse_count + 1 + 1 } with hK2
    have e2 : cseGenerate K1 .compute l2 = (K2, v2) := by
      have hb : (l2 == l1) = false := beq_false_of_ne (Ne.symm hne12)
      rw [hK2, hv2, hK1]
      simp [cseGenerate, writeBuf, List.lookup, hb]
    set K2p : TritonKernel := { K2 with inside_reduction := false } with hK2p
    rcases hao : argsOutput K2p name with ⟨K3, pvar⟩
    have hf := argsOutput_fields K2p name
    rw [hao] at hf
    obtain ⟨_, hfcompute, hfstores, _, _, hfir, hfiter, hfred⟩ := hf
    have hKir : K3.inside_reduction = false := by
      rw [hfir, hK2p]
    have hrp : idx_reduction_part K3 index = [] := by
      rw [idx_reduction_part_congr k K3 index (by rw [hfiter, hK2p, hK2])
        (by rw [hfred, hK2p, hK2])]
      exact hz
    obtain ⟨addr, haddr⟩ := indexing_ok_of_nil K3 index hKir hrp
    have hmask : K3.mask true = "mask=mask" := by
      simp [TritonKernel.mask, hKir]
    set K4 : TritonKernel :=
      { K3 with
        stores := K3.stores ++
          ["tl.store(" ++ pvar ++ " + " ++ addr ++ ", " ++ v2 ++ ", " ++
            "mask=mask" ++ ")"]
        inside_reduction := true } with hK4
    refine ⟨K4, pvar, addr, ?_, ?_, ?_, ?_⟩
    · have hK2ir : K2.inside_reduction = true := by rw [hK2]; exact hir
      simp only [TritonKernel.reduction, hd]
      rw [← hl1]
      rw [e1]
      rw [← hl2]
      rw [e2]
      simp only [TritonKernel.store, ← hK2p, hao, haddr, hK2ir, if_true, writeBuf,
        hmask, hK4]
      simp [hir]
    · rw [hK4]
      show K3.compute = _
      rw [hfcompute, hK2p, hK2]
    · rw [hK4]
      show K3.stores ++
        ["tl.store(" ++ pvar ++ " + " ++ addr ++ ", " ++ v2 ++ ", " ++
          "mask=mask" ++ ")"] = _
      rw [hfstores, hK2p, hK2]
    · rw [hK4]

/-- Witness for `reduction_spec` at a concrete reduction kernel. -/
theorem reduction_spec_witness :
    ∃ k4 pvar addr,
      kIdxEx.reduction "out" "float32" "sum" (symP (.iter 0)) "val" = Except.ok k4 ∧
      k4.compute = kIdxEx.compute ++
        [("tmp" ++ toString kIdxEx.cse_count) ++ " = " ++
          ("tl.where(mask_reduction, " ++ "val" ++ ", " ++ "0" ++
            ") if NEED_MASK else " ++ "val"),
         ("tmp" ++ toString (kIdxEx.cse_count + 1)) ++ " = " ++
          ("tl." ++ "sum" ++ "(" ++ ("tmp" ++ toString kIdxEx.cse_count) ++ ", 1)")] ∧
      k4.stores = kIdxEx.stores ++
        ["tl.store(" ++ pvar ++ " + " ++ addr ++ ", " ++
          ("tmp" ++ toString (kIdxEx.cse_count + 1)) ++ ", " ++ "mask=mask" ++ ")"] ∧
      k4.inside_reduction = true :=
  reduction_spec.2.2.2.2.2 kIdxEx "out" "float32" "sum" "0" (symP (.iter 0)) "val"
    rfl rfl rfl (by decide)

/-- The state of `SizeVarAllocator` (`shapes.py`): the forward map from
concrete values to expressions and the (insertion-ordered) reverse map from
minted symbols to their values.  The name of a minted symbol is
`s{len(var_to_val)}` (the configurable name base of the allocator is
embedded as the fixed `s` namespace of `SVar.size`). -/
structure SizeVarAllocator where
  val_to_var : List (Int × SymPoly)
  var_to_val : List (SymPoly × Int)
deriving DecidableEq, Repr

/-- `SizeVarAllocator.__init__`: the forward map is preseeded with the
constants for 0 and 1, then cleared when `zero_one_const` is false. -/
def SizeVarAllocator.init (zero_one_const : Bool) : SizeVarAllocator :=
  { val_to_var := if zero_one_const then [(0, constP 0), (1, constP 1)] else []
    var_to_val := [] }

/-- `SizeVarAllocator.__getitem__`: return the recorded expression for a
previously seen value, or mint a fresh symbol named after the current size
of the reverse map, record both directions, and return it. -/
def SizeVarAllocator.getitem (a : SizeVarAllocator) (val : Int) :
    SizeVarAllocator × SymPoly :=
  match a.val_to_var.lookup val with
  | some e => (a, e)
  | none =>
    let var := symP (.size a.var_to_val.length)
    ({ val_to_var := a.val_to_var ++ [(val, var)]
       var_to_val := a.var_to_val ++ [(var, val)] }, var)

/-- Looking up a key just appended to an association list succeeds. -/
theorem lookup_append_self {α β : Type} [BEq α] [LawfulBEq α]
    (l : List (α × β)) (a : α) (b : β) (h : l.lookup a = none) :
    (l ++ [(a, b)]).lookup a = some b := by
  induction l with
  | nil => simp [List.lookup]
  | cons p rest ih =>
    obtain ⟨k1, b1⟩ := p
    cases hb : a == k1 with
    | true =>
      rw [show List.lookup a ((k1, b1) :: rest) =
        match a == k1 with
        | true => some b1
        | false => List.lookup a rest from rfl, hb] at h
      cases h
    | false =>
      rw [List.cons_append,
        show List.lookup a ((k1, b1) :: (rest ++ [(a, b)])) =
          match a == k1 with
          | true => some b1
          | false => List.lookup a (rest ++ [(a, b)]) from rfl, hb]
      rw [show List.lookup a ((k1, b1) :: rest) =
        match a == k1 with
        | true => some b1
        | false => List.lookup a rest from rfl, hb] at h
      exact ih h

/-- C6: `lookup` is idempotent — looking a value up twice returns the
identical expression and leaves the allocator unchanged the second time —
and with zero/one constant folding enabled (the default) the values 0 and
1 map to the fixed constant expressions 0 and 1 rather than to fresh
symbolic variables. -/
theorem getitem_idempotent :
    (∀ (a : SizeVarAllocator) (v : Int),
      ((a.getitem v).1).getitem v = ((a.getitem v).1, (a.getitem v).2)) ∧
    (SizeVarAllocator.init true).getitem 0 = (SizeVarAllocator.init true, constP 0) ∧
    (SizeVarAllocator.init true).getitem 1 = (SizeVarAllocator.init true, constP 1) := by
  refine ⟨?_, by decide, by decide⟩
  intro a v
  rcases hl : a.val_to_var.lookup v with _ | e
  · have hgv : a.getitem v =
      ({ val_to_var := a.val_to_var ++ [(v, symP (.size a.var_to_val.length))],
         var_to_val := a.var_to_val ++ [(symP (.size a.var_to_val.length), v)] },
        symP (.size a.var_to_val.length)) := by
      simp [SizeVarAllocator.getitem, hl]
    have hlk2 : (a.val_to_var ++ [(v, symP (.size a.var_to_val.length))]).lookup v =
        some (symP (.size a.var_to_val.length)) := lookup_append_self _ _ _ hl
    rw [hgv]
    simp [SizeVarAllocator.getitem, hlk2]
  · have hgv : a.getitem v = (a, e) := by
      simp [SizeVarAllocator.getitem, hl]
    rw [hgv]
    simp [SizeVarAllocator.getitem, hl]

/-- Modelled from the spec: `str(expr)`, the rendering `codegen` uses to
compare and emit symbolic shapes; sympy prints the expressions this
allocator mints the same way the kernel expression printer does. -/
def sympyStr (p : SymPoly) : String := texpr p

/-- A graph input as `SizeVarAllocator.codegen` sees it: its recorded
sizes (`get_size`) and strides (`get_stride`). -/
structure GraphInput where
  size : List SymPoly
  stride : List SymPoly
deriving Repr

/-- The inner dimension loop of `SizeVarAllocator.codegen` for one input:
emit `shape = name.attr(dim)` for each rendered shape still needed,
removing it from the needed set. -/
def bindDims (name attr : String) (shapes : List SymPoly) (dim : Nat)
    (needed : List String) (lines : List String) : List String × List String :=
  match shapes with
  | [] => (needed, lines)
  | s :: rest =>
    let shape := sympyStr s
    if needed.contains shape then
      bindDims name attr rest (dim + 1) (needed.erase shape)
        (lines ++ [shape ++ " = " ++ name ++ "." ++ attr ++ "(" ++ toString dim ++ ")"])
    else
      bindDims name attr rest (dim + 1) needed lines

/-- One pass of `SizeVarAllocator.codegen` over all graph inputs. -/
def bindLoop (attr : String) (inputs : List (String × List SymPoly))
    (needed : List String) (lines : List String) : List String × List String :=
  match inputs with
  | [] => (needed, lines)
  | (name, shapes) :: rest =>
    let r := bindDims name attr shapes 0 needed lines
    bindLoop attr rest r.1 r.2

/-- `SizeVarAllocator.codegen`: assign all symbolic shapes to locals by
scanning the inputs' sizes and then their strides; the final
`assert not needed` is modelled as returning `none` when some symbolic
variable is left unbound. -/
def SizeVarAllocator.codegen (a : SizeVarAllocator)
    (graph_inputs : List (String × GraphInput)) : Option (List String) :=
  let needed := (a.var_to_val.map (fun p => sympyStr p.1)).dedup
  let r1 := bindLoop "size" (graph_inputs.map (fun p => (p.1, p.2.size))) needed []
  let r2 := bindLoop "stride" (graph_inputs.map (fun p => (p.1, p.2.stride))) r1.1 r1.2
  if r2.1.isEmpty then some r2.2 else none

/-- A scan item: the rendered shape string, the input name, the attribute
(`size` or `stride`) and the dimension index. -/
abbrev BindItem := String × String × String × Nat

/-- The scan items of one input's dimension list, in order. -/
def dimItems (name attr : String) : List SymPoly → Nat → List BindItem
  | [], _ => []
  | s :: rest, dim => (sympyStr s, name, attr, dim) :: dimItems name attr rest (dim + 1)

/-- The scan items of one whole pass, in input order. -/
def scanItems (attr : String) : List (String × List SymPoly) → List BindItem
  | [] => []
  | (name, shapes) :: rest => dimItems name attr shapes 0 ++ scanItems attr rest

/-- The binding line emitted for a scan item. -/
def bindLine (it : BindItem) : String :=
  it.1 ++ " = " ++ it.2.1 ++ "." ++ it.2.2.1 ++ "(" ++ toString it.2.2.2 ++ ")"

/-- The single flattened loop over scan items equivalent to the two nested
loops of `codegen`. -/
def itemLoop (needed : List String) (lines : List String) :
    List BindItem → List String × List String
  | [] => (needed, lines)
  | it :: rest =>
    if needed.contains it.1 then
      itemLoop (needed.erase it.1) (lines ++ [bindLine it]) rest
    else itemLoop needed lines rest

/-- The matched items of the scan, with the erasure of satisfied
variables made explicit. -/
def firstMatches (needed : List String) : List BindItem → List BindItem
  | [] => []
  | it :: rest =>
    if needed.contains it.1 then it :: firstMatches (needed.erase it.1) rest
    else firstMatches needed rest

/-- The items that are the first occurrence of their rendered string in
the scan order (the claim's notion of the first input/dimension that can
bind a given variable). -/
def firstOccAux (seen : List String) : List BindItem → List BindItem
  | [] => []
  | it :: rest =>
    if seen.contains it.1 then firstOccAux seen rest
    else it :: firstOccAux (it.1 :: seen) rest

theorem itemLoop_append (needed lines : List String) (l1 l2 : List BindItem) :
    itemLoop needed lines (l1 ++ l2) =
      itemLoop (itemLoop needed lines l1).1 (itemLoop needed lines l1).2 l2 := by
  induction l1 generalizing needed lines with
  | nil => rfl
  | cons it rest ih =>
    rw [List.cons_append]
    by_cases h : needed.contains it.1 = true
    · rw [show itemLoop needed lines (it :: (rest ++ l2)) =
        itemLoop (needed.erase it.1) (lines ++ [bindLine it]) (rest ++ l2) from by
          rw [itemLoop, if_pos h],
        show itemLoop needed lines (it :: rest) =
        itemLoop (needed.erase it.1) (lines ++ [bindLine it]) rest from by
          rw [itemLoop, if_pos h]]
      exact ih _ _
    · rw [show itemLoop needed lines (it :: (rest ++ l2)) =
        itemLoop needed lines (rest ++ l2) from by rw [itemLoop, if_neg h],
        show itemLoop needed lines (it :: rest) =
        itemLoop needed lines rest from by rw [itemLoop, if_neg h]]
      exact ih _ _

theorem bindDims_eq_itemLoop (name attr : String) (shapes : List SymPoly)
    (dim : Nat) (needed lines : List String) :
    bindDims name attr shapes dim needed lines =
      itemLoop needed lines (dimItems name attr shapes dim) := by
  induction shapes generalizing dim needed lines with
  | nil => rfl
  | cons s rest ih =>
    rw [bindDims, dimItems, itemLoop]
    by_cases h : needed.contains (sympyStr s) = true
    · rw [if_pos h, if_pos h, ih]
      rfl
    · rw [if_neg h, if_neg h, ih]

theorem bindLoop_eq_itemLoop (attr : String)
    (inputs : List (String × List SymPoly)) (needed lines : List String) :
    bindLoop attr inputs needed lines =
      itemLoop needed lines (scanItems attr inputs) := by
  induction inputs generalizing needed lines with
  | nil => rfl
  | cons p rest ih =>
    obtain ⟨name, shapes⟩ := p
    rw [bindLoop, scanItems, itemLoop_append, ← bindDims_eq_itemLoop]
    exact ih _ _

theorem firstOccAux_not_seen (items : List BindItem) :
    ∀ (seen : List String), ∀ x ∈ firstOccAux seen items, seen.contains x.1 = false := by
  induction items with
  | nil => intro seen x hx; cases hx
  | cons it rest ih =>
    intro seen x hx
    rw [firstOccAux] at hx
    by_cases h : seen.contains it.1 = true
    · rw [if_pos h] at hx
      exact ih seen x hx
    · rw [if_neg h] at hx
      rcases List.mem_cons.mp hx with rfl | hx'
      · simpa using h
      · have h2 := ih (it.1 :: seen) x hx'
        rw [List.contains_cons] at h2
        exact (Bool.or_eq_false_iff.mp h2).2

theorem firstMatches_eq_firstOcc (items : List BindItem) :
    ∀ (needed seen : List String), needed.Nodup →
      (∀ s, seen.contains s = true → needed.contains s = false) →
      firstMatches needed items =
        (firstOccAux seen items).filter (fun x => needed.contains x.1) := by
  induction items with
  | nil => intro needed seen _ _; rfl
  | cons it rest ih =>
    intro needed seen hnd hdisj
    rw [firstMatches, firstOccAux]
    by_cases hn : needed.contains it.1 = true
    · have hs : seen.contains it.1 = false := by
        by_contra hs'
        rw [hdisj it.1 (by simpa using hs')] at hn
        cases hn
      rw [if_pos hn, if_neg (by rw [hs]; exact Bool.false_ne_true),
        List.filter_cons, if_pos hn]
      congr 1
      rw [ih (needed.erase it.1) (it.1 :: seen) (hnd.erase it.1) ?_]
      · apply List.filter_congr
        intro x hx
        have hxs := firstOccAux_not_seen rest (it.1 :: seen) x hx
        rw [List.contains_cons] at hxs
        have hxne : x.1 ≠ it.1 := by
          intro e
          rw [e] at hxs
          simp at hxs
        by_cases hxm : x.1 ∈ needed
        · have h1 : (needed.erase it.1).contains x.1 = true := by
            exact List.elem_iff.mpr ((List.mem_erase_of_ne hxne).mpr hxm)
          have h2 : needed.contains x.1 = true := List.elem_iff.mpr hxm
          rw [h1, h2]
        · have h1 : (needed.erase it.1).contains x.1 = false := by
            rw [Bool.eq_false_iff]
            intro hcon
            exact hxm (List.mem_of_mem_erase (List.elem_iff.mp hcon))
          have h2 : needed.contains x.1 = false := by
            rw [Bool.eq_false_iff]
            intro hcon
            exact hxm (List.elem_iff.mp hcon)
          rw [h1, h2]
      · intro s hsmem
        rw [List.contains_cons] at hsmem
        rcases Bool.or_eq_true_iff.mp hsmem with he | hseen
        · have : s = it.1 := by simpa using he
          subst this
          rw [Bool.eq_false_iff]
          intro hcon
          exact (hnd.not_mem_erase) (List.elem_iff.mp hcon)
        · have := hdisj s hseen
          rw [Bool.eq_false_iff] at this ⊢
          intro hcon
          exact this (List.elem_iff.mpr (List.mem_of_mem_erase (List.elem_iff.mp hcon)))
    · rw [if_neg hn]
      by_cases hs : seen.contains it.1 = true
      · rw [if_pos hs]
        exact ih needed seen hnd hdisj
      · rw [if_neg hs, List.filter_cons, if_neg hn]
        refine ih needed (it.1 :: seen) hnd ?_
        intro s hsmem
        rw [List.contains_cons] at hsmem
        rcases Bool.or_eq_true_iff.mp hsmem with he | hseen
        · have : s = it.1 := by simpa using he
          subst this
          simpa using hn
        · exact hdisj s hseen

theorem itemLoop_lines (items : List BindItem) :
    ∀ (needed lines : List String),
      (itemLoop needed lines items).2 =
        lines ++ (firstMatches needed items).map bindLine := by
  induction items with
  | nil => intro needed lines; simp [itemLoop, firstMatches]
  | cons it rest ih =>
    intro needed lines
    rw [itemLoop, firstMatches]
    by_cases h : needed.contains it.1 = true
    · rw [if_pos h, if_pos h, ih]
      simp
    · rw [if_neg h, if_neg h, ih]

theorem itemLoop_needed (items : List BindItem) :
    ∀ (needed lines : List String), needed.Nodup →
      (itemLoop needed lines items).1 =
        needed.filter (fun v => !((items.map (fun it => it.1)).contains v)) := by
  induction items with
  | nil =>
    intro needed lines _
    simp [itemLoop]
  | cons it rest ih =>
    intro needed lines hnd
    rw [itemLoop]
    by_cases h : needed.contains it.1 = true
    · rw [if_pos h, ih _ _ (hnd.erase it.1), List.Nodup.erase_eq_filter hnd,
        List.filter_filter]
      apply List.filter_congr
      intro x _
      rw [List.map_cons, List.contains_cons, Bool.not_or, Bool.and_comm]
      rfl
    · rw [if_neg h, ih _ _ hnd]
      apply List.filter_congr
      intro x hx
      have hne : x ≠ it.1 := by
        intro e
        subst e
        exact h (List.elem_iff.mpr hx)
      rw [List.map_cons, List.contains_cons, beq_false_of_ne hne]
      simp

theorem firstOccAux_strings_nodup (items : List BindItem) :
    ∀ (seen : List String), ((firstOccAux seen items).map (fun it => it.1)).Nodup := by
  induction items with
  | nil => intro seen; simp [firstOccAux]
  | cons it rest ih =>
    intro seen
    rw [firstOccAux]
    by_cases h : seen.contains it.1 = true
    · rw [if_pos h]
      exact ih seen
    · rw [if_neg h, List.map_cons]
      refine List.nodup_cons.mpr ⟨?_, ih (it.1 :: seen)⟩
      intro hmem
      rcases List.mem_map.mp hmem with ⟨x, hx, he⟩
      have hns := firstOccAux_not_seen rest (it.1 :: seen) x hx
      rw [List.contains_cons, he] at hns
      simp at hns

/-- The binding emission as the claim describes it: scan the inputs' sizes
first and then their strides, in input and dimension order; for each scan
position that is the first occurrence of a needed variable's rendered
string, emit exactly one binding line `var = input.size(dim)` or
`var = input.stride(dim)`; fail the final assertion (return `none`) when
some needed variable occurs nowhere in the scan. -/
def codegen_spec_model (a : SizeVarAllocator)
    (gi : List (String × GraphInput)) : Option (List String) :=
  let needed0 := (a.var_to_val.map (fun p => sympyStr p.1)).dedup
  let items := scanItems "size" (gi.map (fun p => (p.1, p.2.size))) ++
    scanItems "stride" (gi.map (fun p => (p.1, p.2.stride)))
  if needed0.all (fun v => (items.map (fun it => it.1)).contains v) then
    some (((firstOccAux [] items).filter (fun it => needed0.contains it.1)).map bindLine)
  else none

/-- C7: `codegen` scans sizes before strides in declaration order, emits
exactly one binding line per needed symbolic variable — at the first
input/dimension whose rendered value string matches — and hard-fails
(`assert not needed`) exactly when some symbolic variable remains unbound
after the whole scan; the emitted lines are the first-occurrence binding
lines in scan order (each variable is bound at most once). -/
theorem codegen_spec (a : SizeVarAllocator) (gi : List (String × GraphInput)) :
    a.codegen gi = codegen_spec_model a gi ∧
    ∀ (items : List BindItem),
      ((firstOccAux [] items).map (fun it => it.1)).Nodup := by
  refine ⟨?_, fun items => firstOccAux_strings_nodup items []⟩
  simp only [SizeVarAllocator.codegen, codegen_spec_model]
  rw [bindLoop_eq_itemLoop, bindLoop_eq_itemLoop, ← itemLoop_append]
  set needed0 := (a.var_to_val.map (fun p => sympyStr p.1)).dedup with hneeded0
  set items := scanItems "size" (gi.map (fun p => (p.1, p.2.size))) ++
    scanItems "stride" (gi.map (fun p => (p.1, p.2.stride))) with hitems
  have hnd : needed0.Nodup := List.nodup_dedup _
  rw [itemLoop_needed items needed0 [] hnd, itemLoop_lines items needed0 []]
  by_cases hall : needed0.all (fun v => (items.map (fun it => it.1)).contains v) = true
  · have hfil : needed0.filter
        (fun v => !((items.map (fun it => it.1)).contains v)) = [] := by
      rw [List.filter_eq_nil_iff]
      intro v hv
      have hvt := List.all_eq_true.mp hall v hv
      rw [hvt]
      decide
    rw [hfil, if_pos hall]
    simp only [List.isEmpty_nil, if_true, List.nil_append]
    rw [firstMatches_eq_firstOcc items needed0 [] hnd (by intro s hs; cases hs)]
  · have hne : needed0.filter
        (fun v => !((items.map (fun it => it.1)).contains v)) ≠ [] := by
      intro hcon
      apply hall
      rw [List.all_eq_true]
      intro v hv
      by_contra hvc
      have hmem := List.filter_eq_nil_iff.mp hcon v hv
      apply hmem
      simp only [Bool.not_eq_true] at hvc
      rw [hvc]
      decide
    rw [if_neg hall]
    rw [if_neg (by simpa [List.isEmpty_iff] using hne)]

/-- `FixedLayout` from `ir.py`: device and dtype (opaque here), sizes,
strides and element offset. -/
structure FixedLayout where
  device : Option String
  dtype : Option String
  size : List SymPoly
  stride : List SymPoly
  offset : SymPoly
deriving Repr

/-- The indexer closure of `FixedLayout.make_indexer`: check the rank,
then form `sum(l * r for l, r in zip(index, stride)) + offset`. -/
def FixedLayout.make_indexer (l : FixedLayout) (index : List SymPoly) :
    Except PyErr SymPoly :=
  if index.length = l.stride.length then
    Except.ok (addPoly
      ((index.zip l.stride).foldl
        (fun acc p => addPoly acc (mulPoly p.1 p.2)) (constP 0))
      l.offset)
  else Except.error PyErr.assertError

/-- The append loop of `default_strides`: each new reversed stride is the
current size times the last stride produced. -/
def stride_scan (last : SymPoly) : List SymPoly → List SymPoly
  | [] => []
  | size :: rest =>
    let next := mulPoly size last
    next :: stride_scan next rest

/-- `FixedLayout.default_strides` from `ir.py`: build the reversed stride
list starting from `1` over `reversed(sizes[1:])`, then reverse it. -/
def FixedLayout.default_strides (sizes : List SymPoly) : List SymPoly :=
  match sizes with
  | [] => []
  | _ :: rest => ((constP 1) :: stride_scan (constP 1) rest.reverse).reverse

/-- `FixedLayout.indexer_from_sizes` from `ir.py`. -/
def FixedLayout.indexer_from_sizes (sizes : List SymPoly) :
    List SymPoly → Except PyErr SymPoly :=
  (FixedLayout.mk none none sizes (FixedLayout.default_strides sizes)
    (constP 0)).make_indexer

/-- The right-nested product of a list of size expressions. -/
def polyProd (l : List SymPoly) : SymPoly := l.foldr mulPoly (constP 1)

theorem stride_scan_length (l : List SymPoly) :
    ∀ acc, (stride_scan acc l).length = l.length := by
  induction l with
  | nil => intro acc; rfl
  | cons s rest ih => intro acc; simp [stride_scan, ih]

theorem stride_scan_get (l : List SymPoly) :
    ∀ (acc : SymPoly) (j : Nat), j ≤ l.length →
      (acc :: stride_scan acc l)[j]? =
        some ((l.take j).foldl (fun a s => mulPoly s a) acc) := by
  induction l with
  | nil =>
    intro acc j hj
    obtain rfl := Nat.le_zero.mp hj
    rfl
  | cons s rest ih =>
    intro acc j hj
    cases j with
    | zero => rfl
    | succ j' =>
      simp only [stride_scan]
      rw [List.getElem?_cons_succ, ih (mulPoly s acc) j' (Nat.succ_le_succ_iff.mp hj)]
      rfl

/-- C10: `default_strides` maps the empty size list to the empty stride
list and a nonempty one to the contiguous row-major strides: the list has
the same length, its entry at position `i` is the product of the sizes at
positions `i+1` onward, and in particular its last entry is `1`. -/
theorem default_strides_spec (sizes : List SymPoly) (i : Nat) :
    (FixedLayout.default_strides sizes)[i]? =
      if i < sizes.length then some (polyProd (sizes.drop (i + 1))) else none := by
  cases sizes with
  | nil => simp [FixedLayout.default_strides]
  | cons s rest =>
    rw [FixedLayout.default_strides]
    have hlen : ((constP 1) :: stride_scan (constP 1) rest.reverse).length
        = rest.length + 1 := by
      simp [stride_scan_length]
    by_cases hi : i < rest.length + 1
    · rw [if_pos (by simpa using hi)]
      rw [List.getElem?_reverse (by rw [hlen]; exact hi), hlen]
      have hsub : rest.length + 1 - 1 - i = rest.length - i := by omega
      rw [hsub]
      rw [stride_scan_get rest.reverse (constP 1) (rest.length - i)
        (by simp)]
      congr 1
      rw [show rest.reverse.take (rest.length - i) = (rest.drop i).reverse from ?_]
      · rw [List.foldl_reverse, List.drop_succ_cons]
        rfl
      · rw [List.take_reverse]
        have : rest.length - (rest.length - i) = i := by omega
        rw [this]
    · rw [if_neg (by simpa using hi)]
      rw [List.getElem?_eq_none]
      rw [List.length_reverse, hlen]
      omega

/-- The `ExpandView` broadcast wrapper from `ir.py`: the wrapped node's
size list and the expanded target size list are what `make_loader`
captures. -/
structure ExpandView where
  data_size : List SymPoly
  size : List SymPoly
deriving Repr

/-- The loader returned by `ExpandView.make_loader` in `ir.py`: after the
rank assertion, the body runs `for i in len(actual)` — iterating over an
`int`, which raises `TypeError` before any iteration — so every call
fails instead of reaching the wrapped loader. -/
def ExpandView.load (v : ExpandView) (_inner : List SymPoly → SymPoly)
    (index : List SymPoly) : Except PyErr SymPoly :=
  let actual := v.data_size
  let skip := v.size.length - actual.length
  let index := index.drop skip
  if index.length = actual.length then Except.error PyErr.typeError
  else Except.error PyErr.assertError

/-- The loader the spec and the source's own comment (`zero out broadcast
dimension`) describe, with the intended `for i in range(len(actual))`:
drop the leading padding, replace the index entry of every size-1
dimension by the constant 0, and call the wrapped loader. -/
def ExpandView.loadIntended (v : ExpandView) (inner : List SymPoly → SymPoly)
    (index : List SymPoly) : Except PyErr SymPoly :=
  let actual := v.data_size
  let index := index.drop (v.size.length - actual.length)
  if index.length = actual.length then
    Except.ok (inner ((index.zip actual).map
      (fun p => if p.2 = constP 1 then constP 0 else p.1)))
  else Except.error PyErr.assertError

/-- C9 (code evaluated at the failing input): broadcasting `[1]` to
`[2, 1]` and loading any in-range index raises `TypeError` — the loop
header `for i in len(actual)` iterates over an `int` — instead of zeroing
the broadcast dimension and calling the inner loader as the spec (and the
source's own comment) describe. -/
theorem expand_view_load_type_error :
    ExpandView.load ⟨[constP 1], [constP 2, constP 1]⟩
      (fun l => l.headD (constP 0)) [symP (.iter 0), symP (.iter 1)] =
      Except.error PyErr.typeError := rfl

/-- On the intended loader, the value requested in a broadcast dimension
never affects the address: any index entries produce the same load. -/
theorem loadIntended_zeroes_broadcast (x y : SymPoly) :
    ExpandView.loadIntended ⟨[constP 1], [constP 2, constP 1]⟩
      (fun l => l.headD (constP 0)) [x, y] = Except.ok (constP 0) := rfl
